import Mathlib

/-!
# davidwells.io: feed serializer and default layout

A shallow embedding of `gatsby-config.js` (site metadata, the two GraphQL
queries of `gatsby-plugin-feed` and the `serialize` callback) and of
`src/layouts/Default/index.js` (`MainLayout.render`).

JavaScript objects are association lists from property names to values, in
property order.  Property names are GraphQL field names (identifiers), so the
integer-key reordering of JavaScript objects and the `__proto__` setter do not
arise.
-/

namespace GatsbyConfig

/-! ## JavaScript values and plain objects -/

/-- JSON-like JavaScript values, plus `undefined` (what reading a missing
property yields). -/
inductive JSVal where
  | undefined : JSVal
  | null : JSVal
  | bool (b : Bool) : JSVal
  | num (n : Int) : JSVal
  | str (s : String) : JSVal
  | arr (xs : List JSVal) : JSVal
  | obj (kvs : List (String × JSVal)) : JSVal

/-- A plain object: its own enumerable properties, in property order. -/
abbrev JSObj := List (String × JSVal)

/-- Own property names of an object, `Object.keys(o)`. -/
def objKeys (o : JSObj) : List String := o.map Prod.fst

/-- Property read `o[k]`: the value of the first binding of `k`, `undefined`
when there is none. -/
def objGet : JSObj → String → JSVal
  | [], _ => JSVal.undefined
  | (k', v) :: rest, k => if k' = k then v else objGet rest k

/-- Property write `o[k] = v`: an existing property keeps its position and
takes the new value, a new property is appended. -/
def objSet : JSObj → String → JSVal → JSObj
  | [], k, v => [(k, v)]
  | (k', v') :: rest, k, v =>
    if k' = k then (k', v) :: rest else (k', v') :: objSet rest k v

/-- One source of `Object.assign`: for every own key of `source`, in order,
`target[key] = source[key]`. -/
def assignOne (target source : JSObj) : JSObj :=
  (objKeys source).foldl (fun t k => objSet t k (objGet source k)) target

/-- The function `Object.assign(target, ...sources)`: sources are copied left
to right, later sources overwriting earlier ones. -/
def objectAssign (target : JSObj) (sources : List JSObj) : JSObj :=
  sources.foldl assignOne target

/-- The `+` operator on two values of GraphQL type `String` (a string or
`null`): string concatenation when either side is a string (`null` prints as
`"null"`), numeric addition `0 + 0` when both are `null`. -/
def jsAdd : Option String → Option String → JSVal
  | some a, some b => JSVal.str (a ++ b)
  | some a, none => JSVal.str (a ++ "null")
  | none, some b => JSVal.str ("null" ++ b)
  | none, none => JSVal.num 0

/-! ## Site metadata (`module.exports.siteMetadata`) -/

structure MenuItem where
  label : String
  path : String

structure Author where
  name : String
  email : String
  telegram : String
  twitter : String
  github : String
  rss : String
  vk : String

structure SiteMetadata where
  url : String
  siteUrl : String
  title : String
  subtitle : String
  copyright : String
  disqusShortname : String
  menu : List MenuItem
  author : Author

/-- The repository's own `siteMetadata`. -/
def siteMetadata : SiteMetadata where
  url := "davidwells.io"
  siteUrl := "https://davidwells.io"
  title := "David Wells"
  subtitle := "Serverless Architectures"
  copyright := "© All rights reserved."
  disqusShortname := "davidwells"
  menu := [⟨"Blog", "/blog"⟩, ⟨"Talks", "/talks"⟩, ⟨"About me", "/about/"⟩,
    ⟨"Contact me", "/contact/"⟩]
  author := ⟨"David Wells", "#", "#", "#", "#", "#", "#"⟩

/-! ## The data handed to `serialize` -/

/-- Result of the selection `siteMetadata { site_url: url, title,
description: subtitle }`. -/
structure SiteMetadataResult where
  site_url : Option String
  title : Option String
  description : Option String

structure Site where
  siteMetadata : SiteMetadataResult

/-- The plugin's site query
`{ site { siteMetadata { site_url: url  title  description: subtitle } } }`
resolved against a site metadata record: each alias takes the value of the
field written after the colon. -/
def siteQuery (m : SiteMetadata) : Site :=
  ⟨⟨some m.url, some m.title, some m.subtitle⟩⟩

structure Fields where
  slug : Option String

structure Node where
  html : JSVal
  fields : Fields
  frontmatter : JSObj

structure Edge where
  node : Node

structure AllMarkdownRemark where
  edges : List Edge

structure Query where
  site : Site
  allMarkdownRemark : AllMarkdownRemark

structure SerializeArg where
  query : Query

/-- The object literal passed as last source to `Object.assign` in
`serialize` (lines 87-91). -/
def entryLiteral (site : Site) (edge : Edge) : JSObj :=
  [("description", objGet edge.node.frontmatter "description"),
   ("date", objGet edge.node.frontmatter "date"),
   ("url", jsAdd site.siteMetadata.site_url edge.node.fields.slug),
   ("guid", jsAdd site.siteMetadata.site_url edge.node.fields.slug),
   ("custom_elements", JSVal.arr [JSVal.obj [("content:encoded", edge.node.html)]])]

/-- The body of the arrow function mapped over the edges:
`Object.assign({}, edge.node.frontmatter, { ... })`. -/
def serializeEdge (site : Site) (edge : Edge) : JSObj :=
  objectAssign [] [edge.node.frontmatter, entryLiteral site edge]

/-- The feed serializer
`({ query: { site, allMarkdownRemark } }) => allMarkdownRemark.edges.map(...)`. -/
def serialize (arg : SerializeArg) : List JSObj :=
  arg.query.allMarkdownRemark.edges.map (serializeEdge arg.query.site)

/-- Whether the string `s` begins with the string `pre`. -/
def beginsWith (pre s : String) : Bool := pre.data.isPrefixOf s.data

/-- An absolute web URL: a string that begins with the scheme `http://` or
`https://`. -/
def isAbsoluteUrl : JSVal → Bool
  | JSVal.str s => beginsWith "http://" s || beginsWith "https://" s
  | _ => false

/-! ## The feed query (`feeds[0].query`) -/

/-- Frontmatter of a stored markdown node, at the types the feed query uses
it with: the filter compares `layout` with a string and `draft` with a
boolean, so the query engine only runs the query on a store where `layout` is
a string and `draft` a boolean (or the field is absent, `none`). -/
structure StoredFrontmatter where
  title : JSVal
  date : JSVal
  layout : Option String
  draft : Option Bool
  description : JSVal

/-- A markdown node of the content store. -/
structure MarkdownRemark where
  html : JSVal
  fields : Fields
  frontmatter : StoredFrontmatter

/-- The filter clause `layout: { eq: "post" }`. -/
def layoutIsPost : Option String → Bool
  | some s => s == "post"
  | none => false

/-- The filter clause `draft: { ne: true }`. -/
def draftNeTrue : Option Bool → Bool
  | some true => false
  | _ => true

/-- The whole filter
`filter: { frontmatter: { layout: { eq: "post" }, draft: { ne: true } } }`. -/
def feedFilter (n : MarkdownRemark) : Bool :=
  layoutIsPost n.frontmatter.layout && draftNeTrue n.frontmatter.draft

/-- A selected GraphQL field: a missing value is delivered as `null`. -/
def gqlField : JSVal → JSVal
  | JSVal.undefined => JSVal.null
  | v => v

/-- A selected field of type `String`. -/
def gqlString : Option String → JSVal
  | some s => JSVal.str s
  | none => JSVal.null

/-- A selected field of type `Boolean`. -/
def gqlBoolean : Option Bool → JSVal
  | some b => JSVal.bool b
  | none => JSVal.null

/-- The selection set `edges { node { html fields { slug } frontmatter {
title date layout draft description } } }` applied to one stored node. -/
def selectNode (n : MarkdownRemark) : Edge :=
  ⟨⟨n.html, ⟨n.fields.slug⟩,
    [("title", gqlField n.frontmatter.title),
     ("date", gqlField n.frontmatter.date),
     ("layout", gqlString n.frontmatter.layout),
     ("draft", gqlBoolean n.frontmatter.draft),
     ("description", gqlField n.frontmatter.description)]⟩⟩

/-- The argument `limit: 1000` of the feed query. -/
def feedLimit : Nat := 1000

/-- The feed query `allMarkdownRemark(limit: 1000, sort: { order: DESC,
fields: [frontmatter___date] }, filter: ...) { edges { node { ... } } }` over
the stored markdown nodes: filter; when no node is left the connection is
`null`; otherwise sort by date descending, keep the first `limit` nodes,
select.  The order on date values belongs to the query engine and is the
parameter `dateLe`. -/
def feedQuery (dateLe : JSVal → JSVal → Bool) (nodes : List MarkdownRemark) :
    Option AllMarkdownRemark :=
  if (nodes.filter feedFilter).isEmpty then none
  else
    some ⟨(((nodes.filter feedFilter).mergeSort
      (fun a b => dateLe b.frontmatter.date a.frontmatter.date)).take
      feedLimit).map selectNode⟩

/-- An exception thrown by the JavaScript code. -/
inductive JSError where
  | typeError (message : String) : JSError

/-- The query results as the plugin hands them over: `allMarkdownRemark` may
be `null`. -/
structure RawQuery where
  site : Site
  allMarkdownRemark : Option AllMarkdownRemark

/-- The call `serialize({ query })` on the raw results.  The parameter
pattern binds `site` and `allMarkdownRemark`; there is no guard, so reading
`allMarkdownRemark.edges` of `null` (line 85) throws a `TypeError`; on an
object the serializer runs as `serialize`. -/
def callSerialize (q : RawQuery) : Except JSError (List JSObj) :=
  match q.allMarkdownRemark with
  | none => Except.error (JSError.typeError "Cannot read property 'edges' of null")
  | some all => Except.ok (serialize ⟨⟨q.site, all⟩⟩)

/-- The feed: the site query and the feed query are run and their results are
handed to `serialize`. -/
def feed (dateLe : JSVal → JSVal → Bool) (m : SiteMetadata)
    (nodes : List MarkdownRemark) : Except JSError (List JSObj) :=
  callSerialize ⟨siteQuery m, feedQuery dateLe nodes⟩

/-- The feed the interface description asks for: one entry for each stored
node that is a post and not a draft, and nothing else. -/
def feedOnePerPost (m : SiteMetadata) (nodes : List MarkdownRemark) : List JSObj :=
  (nodes.filter feedFilter).map (fun n => serializeEdge (siteQuery m) (selectNode n))

/-- A published post. -/
def samplePost : MarkdownRemark :=
  ⟨JSVal.str "<p>Hello</p>", ⟨some "/hello-world/"⟩,
    ⟨JSVal.str "Hello world", JSVal.str "2018-01-01", some "post", some false,
      JSVal.str "First post"⟩⟩

/-- An older published post, without a `draft` field. -/
def sampleOldPost : MarkdownRemark :=
  ⟨JSVal.str "<p>Old</p>", ⟨some "/old/"⟩,
    ⟨JSVal.str "Old", JSVal.str "2017-06-01", some "post", none,
      JSVal.str "An old post"⟩⟩

/-- A draft post. -/
def sampleDraft : MarkdownRemark :=
  ⟨JSVal.str "<p>Soon</p>", ⟨some "/soon/"⟩,
    ⟨JSVal.str "Soon", JSVal.str "2018-02-01", some "post", some true,
      JSVal.undefined⟩⟩

/-- A page that is not a post. -/
def samplePage : MarkdownRemark :=
  ⟨JSVal.str "<p>About</p>", ⟨some "/about/"⟩,
    ⟨JSVal.str "About me", JSVal.undefined, some "page", none, JSVal.undefined⟩⟩

/-- An order on date values for the samples: date strings by their text,
anything else before every string. -/
def sampleDateLe : JSVal → JSVal → Bool
  | JSVal.str a, JSVal.str b => decide (a ≤ b)
  | JSVal.str _, _ => false
  | _, _ => true

/-! ## The serializer over a mutable store

`Object.assign` writes into its first argument.  To speak about what a call
of `serialize` leaves untouched, objects get locations: the frontmatter object
of the `i`-th edge, or an object created during the call. -/

/-- Where a mutable object lives. -/
inductive Loc where
  | frontmatter (i : Nat) : Loc
  | fresh (j : Nat) : Loc

/-- The argument of `serialize` together with the objects created so far. -/
structure World where
  arg : SerializeArg
  fresh : List JSObj

/-- The edge array of the argument. -/
def World.edges (w : World) : List Edge := w.arg.query.allMarkdownRemark.edges

/-- Reading the object at a location. -/
def World.read (w : World) : Loc → JSObj
  | Loc.frontmatter i =>
    match w.edges.get? i with
    | some e => e.node.frontmatter
    | none => []
  | Loc.fresh j => w.fresh.getD j []

/-- Replacing the object at a location. -/
def World.write (w : World) (l : Loc) (o : JSObj) : World :=
  match l with
  | Loc.frontmatter i =>
    ⟨⟨⟨w.arg.query.site,
      ⟨w.edges.modify (fun e => ⟨⟨e.node.html, e.node.fields, o⟩⟩) i⟩⟩⟩, w.fresh⟩
  | Loc.fresh j => ⟨w.arg, w.fresh.set j o⟩

/-- The expression `{}`: a new empty object. -/
def World.alloc (w : World) : World × Loc :=
  (⟨w.arg, w.fresh ++ [[]]⟩, Loc.fresh w.fresh.length)

/-- The call `Object.assign(target, ...sources)` as a store update: the object
at `target` is overwritten in place. -/
def objectAssignAt (w : World) (target : Loc) (sources : List JSObj) : World :=
  w.write target (objectAssign (w.read target) sources)

/-- One call of the arrow function on the `i`-th edge, read from the current
store: `{}` is created, then filled by `Object.assign` from the edge's
frontmatter and the object literal.  The loop only passes indices of the
array, so the first case is never taken. -/
def serializeEdgeAt (w : World) (i : Nat) : World × Loc :=
  match w.edges.get? i with
  | none => (w, Loc.frontmatter i)
  | some edge =>
    let a := w.alloc
    let lit := entryLiteral a.1.arg.query.site edge
    (objectAssignAt a.1 a.2 [a.1.read (Loc.frontmatter i), lit], a.2)

/-- The loop of `Array.prototype.map` over the indices. -/
def serializeLoop : List Nat → World → World × List Loc
  | [], w => (w, [])
  | i :: is, w =>
    let r := serializeEdgeAt w i
    let rest := serializeLoop is r.1
    (rest.1, r.2 :: rest.2)

/-- The serializer run on a store: the final store and the locations of the
returned entries. -/
def serializeWorld (w : World) : World × List Loc :=
  serializeLoop (List.range w.edges.length) w

end GatsbyConfig

/-! ## The default layout (`src/layouts/Default/index.js`) -/

namespace DefaultLayout

open GatsbyConfig

/-- What a React element is an element of: a host tag or a component. -/
inductive ElementType where
  | host (tag : String) : ElementType
  | component (name : String) : ElementType

/-- A React node: an element `React.createElement(type, props, ...children)`,
a primitive value, or an array of nodes. -/
inductive ReactNode where
  | element (type : ElementType) (props : JSObj) (children : List ReactNode) : ReactNode
  | value (v : JSVal) : ReactNode
  | array (xs : List ReactNode) : ReactNode

/-- The class names exported by the CSS module `./Default.css`. -/
structure Styles where
  test : JSVal
  wrapper : JSVal
  content : JSVal

/-- The props of a `MainLayout` instance: `children`, `sidebar` and whatever
else the caller passed. -/
structure Props where
  children : ReactNode
  sidebar : ReactNode
  others : JSObj

/-- A component instance, `this`. -/
structure MainLayout where
  props : Props
  state : JSVal

/-- The method `MainLayout.render`. -/
def MainLayout.render (styles : Styles) (this : MainLayout) : ReactNode :=
  let children := this.props.children
  let sidebar := this.props.sidebar
  ReactNode.element (ElementType.component "Base") [("className", styles.test)]
    [ReactNode.element (ElementType.host "div") [("className", styles.wrapper)]
      [ReactNode.element (ElementType.component "Sidebar") [] [sidebar],
       ReactNode.element (ElementType.host "div") [("className", styles.content)]
         [children]]]

end DefaultLayout

/-! ## Properties of plain objects -/

namespace GatsbyConfig

theorem objGet_objSet (o : JSObj) (k : String) (v : JSVal) (k' : String) :
    objGet (objSet o k v) k' = if k = k' then v else objGet o k' := by
  induction o with
  | nil => simp [objSet, objGet]
  | cons p rest ih =>
    obtain ⟨a, b⟩ := p
    by_cases h : a = k
    · subst h
      by_cases h' : a = k' <;> simp [objSet, objGet, h']
    · by_cases h' : a = k'
      · subst h'
        simp [objSet, objGet, h, Ne.symm h]
      · simp [objSet, objGet, h, h', ih]

theorem mem_objKeys_objSet (o : JSObj) (k : String) (v : JSVal) (k' : String) :
    k' ∈ objKeys (objSet o k v) ↔ k' = k ∨ k' ∈ objKeys o := by
  induction o with
  | nil => simp [objSet, objKeys]
  | cons p rest ih =>
    obtain ⟨a, b⟩ := p
    by_cases h : a = k
    · subst h
      simp [objSet, objKeys]
    · have ih' : k' ∈ List.map Prod.fst (objSet rest k v) ↔
          k' = k ∨ k' ∈ List.map Prod.fst rest := ih
      simp only [objSet, h, if_false, objKeys, List.map_cons, List.mem_cons, ih']
      tauto

theorem nodup_objKeys_objSet (o : JSObj) (k : String) (v : JSVal)
    (h : (objKeys o).Nodup) : (objKeys (objSet o k v)).Nodup := by
  induction o with
  | nil => simp [objSet, objKeys]
  | cons p rest ih =>
    obtain ⟨a, b⟩ := p
    have hn : a ∉ objKeys rest ∧ (objKeys rest).Nodup := by
      simpa [objKeys] using h
    by_cases hk : a = k
    · subst hk
      simpa [objSet, objKeys] using h
    · have hm : a ∉ objKeys (objSet rest k v) := by
        rw [mem_objKeys_objSet]
        rintro (h1 | h1)
        · exact hk h1
        · exact hn.1 h1
      have := ih hn.2
      simp only [objSet, hk, if_false]
      exact List.nodup_cons.mpr ⟨hm, this⟩

theorem objGet_of_not_mem (o : JSObj) (k : String) (h : k ∉ objKeys o) :
    objGet o k = JSVal.undefined := by
  induction o with
  | nil => rfl
  | cons p rest ih =>
    obtain ⟨a, b⟩ := p
    have h1 : ¬ a = k ∧ k ∉ objKeys rest := by
      constructor
      · intro e
        exact h (by simp [objKeys, e])
      · intro e
        exact h (by simp [objKeys] at e ⊢; exact Or.inr e)
    simp [objGet, h1.1, ih h1.2]

theorem objGet_foldl_objSet (f : String → JSVal) (ks : List String) (t : JSObj)
    (k : String) :
    objGet (ks.foldl (fun t k => objSet t k (f k)) t) k =
      if k ∈ ks then f k else objGet t k := by
  induction ks generalizing t with
  | nil => simp
  | cons a rest ih =>
    rw [List.foldl_cons, ih, objGet_objSet]
    by_cases h : k ∈ rest
    · simp [h]
    · by_cases h' : a = k
      · subst h'
        simp
      · simp [h, h', Ne.symm h']

theorem mem_objKeys_foldl_objSet (f : String → JSVal) (ks : List String) (t : JSObj)
    (k : String) :
    k ∈ objKeys (ks.foldl (fun t k => objSet t k (f k)) t) ↔ k ∈ objKeys t ∨ k ∈ ks := by
  induction ks generalizing t with
  | nil => simp
  | cons a rest ih =>
    rw [List.foldl_cons, ih, mem_objKeys_objSet, List.mem_cons]
    tauto

theorem nodup_objKeys_foldl_objSet (f : String → JSVal) (ks : List String) (t : JSObj)
    (h : (objKeys t).Nodup) :
    (objKeys (ks.foldl (fun t k => objSet t k (f k)) t)).Nodup := by
  induction ks generalizing t with
  | nil => simpa using h
  | cons a rest ih =>
    rw [List.foldl_cons]
    exact ih _ (nodup_objKeys_objSet t a (f a) h)

theorem objGet_assignOne (t s : JSObj) (k : String) :
    objGet (assignOne t s) k = if k ∈ objKeys s then objGet s k else objGet t k :=
  objGet_foldl_objSet (objGet s) (objKeys s) t k

theorem mem_objKeys_assignOne (t s : JSObj) (k : String) :
    k ∈ objKeys (assignOne t s) ↔ k ∈ objKeys t ∨ k ∈ objKeys s :=
  mem_objKeys_foldl_objSet (objGet s) (objKeys s) t k

theorem nodup_objKeys_assignOne (t s : JSObj) (h : (objKeys t).Nodup) :
    (objKeys (assignOne t s)).Nodup :=
  nodup_objKeys_foldl_objSet (objGet s) (objKeys s) t h

/-- The names of the properties written by the object literal of `serialize`. -/
theorem objKeys_entryLiteral (site : Site) (edge : Edge) :
    objKeys (entryLiteral site edge) =
      ["description", "date", "url", "guid", "custom_elements"] := rfl

/-- Reading a property of a feed entry: the literal wins, the frontmatter
supplies the rest. -/
theorem objGet_serializeEdge (site : Site) (edge : Edge) (k : String) :
    objGet (serializeEdge site edge) k =
      if k ∈ objKeys (entryLiteral site edge) then objGet (entryLiteral site edge) k
      else objGet edge.node.frontmatter k := by
  unfold serializeEdge objectAssign
  simp only [List.foldl_cons, List.foldl_nil]
  rw [objGet_assignOne, objGet_assignOne]
  by_cases h : k ∈ objKeys (entryLiteral site edge)
  · simp [h]
  · by_cases h' : k ∈ objKeys edge.node.frontmatter
    · simp [h, h']
    · simp [h, h', objGet_of_not_mem _ _ h', objGet]

theorem mem_objKeys_serializeEdge (site : Site) (edge : Edge) (k : String) :
    k ∈ objKeys (serializeEdge site edge) ↔
      k ∈ objKeys edge.node.frontmatter ∨ k ∈ objKeys (entryLiteral site edge) := by
  unfold serializeEdge objectAssign
  simp only [List.foldl_cons, List.foldl_nil]
  rw [mem_objKeys_assignOne, mem_objKeys_assignOne]
  simp [objKeys]

theorem nodup_objKeys_serializeEdge (site : Site) (edge : Edge) :
    (objKeys (serializeEdge site edge)).Nodup := by
  unfold serializeEdge objectAssign
  simp only [List.foldl_cons, List.foldl_nil]
  exact nodup_objKeys_assignOne _ _ (nodup_objKeys_assignOne _ _ (by simp [objKeys]))

theorem objGet_serializeEdge_url (site : Site) (edge : Edge) :
    objGet (serializeEdge site edge) "url" =
      jsAdd site.siteMetadata.site_url edge.node.fields.slug := by
  rw [objGet_serializeEdge, objKeys_entryLiteral]
  simp [entryLiteral, objGet]

theorem objGet_serializeEdge_guid (site : Site) (edge : Edge) :
    objGet (serializeEdge site edge) "guid" =
      jsAdd site.siteMetadata.site_url edge.node.fields.slug := by
  rw [objGet_serializeEdge, objKeys_entryLiteral]
  simp [entryLiteral, objGet]

theorem objGet_serializeEdge_description (site : Site) (edge : Edge) :
    objGet (serializeEdge site edge) "description" =
      objGet edge.node.frontmatter "description" := by
  rw [objGet_serializeEdge, objKeys_entryLiteral]
  simp [entryLiteral, objGet]

theorem objGet_serializeEdge_date (site : Site) (edge : Edge) :
    objGet (serializeEdge site edge) "date" = objGet edge.node.frontmatter "date" := by
  rw [objGet_serializeEdge, objKeys_entryLiteral]
  simp [entryLiteral, objGet]

theorem objGet_serializeEdge_custom_elements (site : Site) (edge : Edge) :
    objGet (serializeEdge site edge) "custom_elements" =
      JSVal.arr [JSVal.obj [("content:encoded", edge.node.html)]] := by
  rw [objGet_serializeEdge, objKeys_entryLiteral]
  simp [entryLiteral, objGet]

/-- The serializer traced on the published sample post, with the site query
resolved against the repository's metadata. -/
theorem serialize_samplePost :
    serialize ⟨⟨siteQuery siteMetadata, ⟨[selectNode samplePost]⟩⟩⟩ =
      [[("title", JSVal.str "Hello world"), ("date", JSVal.str "2018-01-01"),
        ("layout", JSVal.str "post"), ("draft", JSVal.bool false),
        ("description", JSVal.str "First post"),
        ("url", JSVal.str "davidwells.io/hello-world/"),
        ("guid", JSVal.str "davidwells.io/hello-world/"),
        ("custom_elements",
          JSVal.arr [JSVal.obj [("content:encoded", JSVal.str "<p>Hello</p>")]])]] := by
  simp [serialize, serializeEdge, objectAssign, assignOne, objKeys, objSet, objGet,
    entryLiteral, selectNode, samplePost, gqlField, gqlString, gqlBoolean, siteQuery,
    siteMetadata, jsAdd]

end GatsbyConfig

/-! ## The feed serializer -/

namespace GatsbyConfig

/-- Claim C1, evaluated on the code: with the site query resolved against the
repository's own `siteMetadata`, the entry of a node with slug `s` has url
`"davidwells.io" ++ s` (the metadata field `url`, which the alias `site_url`
selects), and that is never `siteMetadata.siteUrl ++ s`. -/
theorem serialize_url_is_bare_host_plus_slug (html : JSVal) (s : String) (fm : JSObj) :
    (serialize ⟨⟨siteQuery siteMetadata, ⟨[⟨⟨html, ⟨some s⟩, fm⟩⟩]⟩⟩⟩).map
        (fun e => objGet e "url") = [JSVal.str ("davidwells.io" ++ s)] ∧
      JSVal.str ("davidwells.io" ++ s) ≠ JSVal.str (siteMetadata.siteUrl ++ s) := by
  constructor
  · simp [serialize, objGet_serializeEdge_url, siteQuery, siteMetadata, jsAdd]
  · intro h
    have h1 : ("davidwells.io" ++ s).data = (siteMetadata.siteUrl ++ s).data := by
      rw [JSVal.str.inj h]
    simp [String.data_append, siteMetadata] at h1

/-- Claim C2: every entry returned by the serializer carries a `url` and a
`guid` property, each once, both holding `site_url + slug` of its edge, so
`guid` equals `url`, whatever the frontmatter holds (a `url` or `guid` of the
frontmatter is overwritten). -/
theorem serialize_guid_eq_url (arg : SerializeArg) :
    (serialize arg).map (fun e => objGet e "guid") =
        (serialize arg).map (fun e => objGet e "url") ∧
      List.Forall₂
        (fun (edge : Edge) (entry : JSObj) =>
          objGet entry "url" =
            jsAdd arg.query.site.siteMetadata.site_url edge.node.fields.slug ∧
          objGet entry "guid" = objGet entry "url" ∧
          (objKeys entry).count "url" = 1 ∧
          (objKeys entry).count "guid" = 1)
        arg.query.allMarkdownRemark.edges (serialize arg) := by
  constructor
  · simp [serialize, objGet_serializeEdge_url, objGet_serializeEdge_guid]
  · unfold serialize
    rw [List.forall₂_map_right_iff]
    apply List.forall₂_same.mpr
    intro edge _
    refine ⟨objGet_serializeEdge_url _ _, ?_, ?_, ?_⟩
    · rw [objGet_serializeEdge_url, objGet_serializeEdge_guid]
    · apply List.count_eq_one_of_mem (nodup_objKeys_serializeEdge _ _)
      rw [mem_objKeys_serializeEdge, objKeys_entryLiteral]
      simp
    · apply List.count_eq_one_of_mem (nodup_objKeys_serializeEdge _ _)
      rw [mem_objKeys_serializeEdge, objKeys_entryLiteral]
      simp

/-- Claim C3: the i-th entry has `description` and `date` equal to the
`description` and `date` of the i-th node's frontmatter. -/
theorem serialize_description_date (arg : SerializeArg) :
    (serialize arg).map (fun e => (objGet e "description", objGet e "date")) =
      arg.query.allMarkdownRemark.edges.map (fun edge =>
        (objGet edge.node.frontmatter "description",
         objGet edge.node.frontmatter "date")) := by
  simp [serialize, objGet_serializeEdge_description, objGet_serializeEdge_date]

/-- Claim C5, evaluated on the code: with the site query resolved against the
repository's own `siteMetadata`, the url of the entry of a node with slug `s`
begins with neither `http://` nor `https://`. -/
theorem serialize_url_not_absolute (html : JSVal) (s : String) (fm : JSObj) :
    (serialize ⟨⟨siteQuery siteMetadata, ⟨[⟨⟨html, ⟨some s⟩, fm⟩⟩]⟩⟩⟩).map
        (fun e => isAbsoluteUrl (objGet e "url")) = [false] := by
  simp [serialize, objGet_serializeEdge_url, siteQuery, siteMetadata, jsAdd,
    isAbsoluteUrl, beginsWith, String.data_append, List.isPrefixOf]

/-- Claim C6: every entry has `custom_elements` equal to a one-element array
holding an object whose only property is `content:encoded`, with the node's
rendered html as value. -/
theorem serialize_custom_elements (arg : SerializeArg) :
    (serialize arg).map (fun e => objGet e "custom_elements") =
      arg.query.allMarkdownRemark.edges.map (fun edge =>
        JSVal.arr [JSVal.obj [("content:encoded", edge.node.html)]]) := by
  simp [serialize, objGet_serializeEdge_custom_elements]

/-- Claim C7: an entry carries every property of its node's frontmatter other
than `description`, `date`, `url`, `guid`, `custom_elements` with the
frontmatter's value (in particular `title`, `layout`, `draft`), and its
property names are those of the frontmatter plus these five, each once. -/
theorem serialize_frame (arg : SerializeArg) :
    List.Forall₂
      (fun (edge : Edge) (entry : JSObj) =>
        (∀ k, objGet entry k =
          if k ∈ ["description", "date", "url", "guid", "custom_elements"] then
            objGet (entryLiteral arg.query.site edge) k
          else objGet edge.node.frontmatter k) ∧
        objGet entry "title" = objGet edge.node.frontmatter "title" ∧
        objGet entry "layout" = objGet edge.node.frontmatter "layout" ∧
        objGet entry "draft" = objGet edge.node.frontmatter "draft" ∧
        (∀ k, k ∈ objKeys entry ↔ (k ∈ objKeys edge.node.frontmatter ∨
          k ∈ ["description", "date", "url", "guid", "custom_elements"])) ∧
        (objKeys entry).Nodup)
      arg.query.allMarkdownRemark.edges (serialize arg) := by
  unfold serialize
  rw [List.forall₂_map_right_iff]
  apply List.forall₂_same.mpr
  intro edge _
  refine ⟨fun k => ?_, ?_, ?_, ?_, fun k => ?_, ?_⟩
  · rw [objGet_serializeEdge, objKeys_entryLiteral]
  · rw [objGet_serializeEdge, objKeys_entryLiteral]; simp
  · rw [objGet_serializeEdge, objKeys_entryLiteral]; simp
  · rw [objGet_serializeEdge, objKeys_entryLiteral]; simp
  · rw [mem_objKeys_serializeEdge, objKeys_entryLiteral]
  · exact nodup_objKeys_serializeEdge _ _

/-- Claim C9: the serializer returns as many entries as there are edges; the
entry at position `i` is the one of the edge at position `i`: it holds that
edge's description, date, `site_url + slug` (as url and as guid) and html,
and reads every other property as that edge's frontmatter; so entries are in
date order exactly when the edges are, for any relation on dates; and no
edges give no entries. -/
theorem serialize_length_and_order (site : Site) (edges : List Edge)
    (r : JSVal → JSVal → Prop) :
    (serialize ⟨⟨site, ⟨edges⟩⟩⟩).length = edges.length ∧
      (∀ i, (serialize ⟨⟨site, ⟨edges⟩⟩⟩).get? i =
        (edges.get? i).map (serializeEdge site)) ∧
      (∀ i, ((serialize ⟨⟨site, ⟨edges⟩⟩⟩).get? i).map
          (fun e => (objGet e "description", objGet e "date", objGet e "url",
            objGet e "guid", objGet e "custom_elements")) =
        (edges.get? i).map (fun edge =>
          (objGet edge.node.frontmatter "description",
           objGet edge.node.frontmatter "date",
           jsAdd site.siteMetadata.site_url edge.node.fields.slug,
           jsAdd site.siteMetadata.site_url edge.node.fields.slug,
           JSVal.arr [JSVal.obj [("content:encoded", edge.node.html)]]))) ∧
      (∀ i k, ((serialize ⟨⟨site, ⟨edges⟩⟩⟩).get? i).map
          (fun e => if k ∈ ["description", "date", "url", "guid", "custom_elements"]
            then JSVal.undefined else objGet e k) =
        (edges.get? i).map (fun edge =>
          if k ∈ ["description", "date", "url", "guid", "custom_elements"]
            then JSVal.undefined else objGet edge.node.frontmatter k)) ∧
      ((serialize ⟨⟨site, ⟨edges⟩⟩⟩).Pairwise
          (fun a b => r (objGet a "date") (objGet b "date")) ↔
        edges.Pairwise (fun a b =>
          r (objGet a.node.frontmatter "date") (objGet b.node.frontmatter "date"))) ∧
      serialize ⟨⟨site, ⟨[]⟩⟩⟩ = [] := by
  refine ⟨?_, fun i => ?_, fun i => ?_, fun i k => ?_, ?_, rfl⟩
  · simp [serialize]
  · simp [serialize]
  · simp [serialize, objGet_serializeEdge_description, objGet_serializeEdge_date,
      objGet_serializeEdge_url, objGet_serializeEdge_guid,
      objGet_serializeEdge_custom_elements, Function.comp_def]
  · have hk : ∀ edge : Edge,
        (if k ∈ ["description", "date", "url", "guid", "custom_elements"]
          then JSVal.undefined else objGet (serializeEdge site edge) k) =
        (if k ∈ ["description", "date", "url", "guid", "custom_elements"]
          then JSVal.undefined else objGet edge.node.frontmatter k) := by
      intro edge
      rw [objGet_serializeEdge, objKeys_entryLiteral]
      split <;> rfl
    cases h : edges[i]? with
    | none => simp [serialize, h]
    | some e => simpa [serialize, h] using hk e
  · simp [serialize, List.pairwise_map, objGet_serializeEdge_date]

end GatsbyConfig

/-! ## The feed: query, then serializer -/

namespace GatsbyConfig

theorem feed_of_posts (dateLe : JSVal → JSVal → Bool) (m : SiteMetadata)
    (nodes : List MarkdownRemark) (hne : (nodes.filter feedFilter).isEmpty = false) :
    feed dateLe m nodes =
      Except.ok ((((nodes.filter feedFilter).mergeSort
        (fun a b => dateLe b.frontmatter.date a.frontmatter.date)).take feedLimit).map
        (fun n => serializeEdge (siteQuery m) (selectNode n))) := by
  simp [feed, callSerialize, feedQuery, hne, serialize, Function.comp_def]

/-- With no published post in the store the connection is `null` and the
serializer throws. -/
theorem feed_without_posts_throws (dateLe : JSVal → JSVal → Bool) (m : SiteMetadata) :
    feed dateLe m [samplePage, sampleDraft] =
      Except.error (JSError.typeError "Cannot read property 'edges' of null") := by
  have h : ([samplePage, sampleDraft].filter feedFilter).isEmpty = true := by decide
  simp [feed, callSerialize, feedQuery, h]

theorem length_feedOnePerPost (m : SiteMetadata) (nodes : List MarkdownRemark) :
    (feedOnePerPost m nodes).length = (nodes.filter feedFilter).length := by
  simp [feedOnePerPost]

theorem feedFilter_samplePost : feedFilter samplePost = true := by decide

theorem sampleDateLe_trans (a b c : JSVal) (hab : sampleDateLe a b = true)
    (hbc : sampleDateLe b c = true) : sampleDateLe a c = true := by
  cases a <;> cases b <;> cases c <;> simp_all [sampleDateLe]
  exact le_trans hab hbc

theorem sampleDateLe_total (a b : JSVal) :
    (sampleDateLe a b || sampleDateLe b a) = true := by
  cases a <;> cases b <;> simp [sampleDateLe]
  exact le_total _ _

theorem filter_samples :
    [sampleOldPost, samplePage, sampleDraft, samplePost].filter feedFilter =
      [sampleOldPost, samplePost] := by
  simp [List.filter, feedFilter, layoutIsPost, draftNeTrue, sampleOldPost, samplePage,
    sampleDraft, samplePost]

theorem sampleDateLe_new_old :
    sampleDateLe samplePost.frontmatter.date sampleOldPost.frontmatter.date = false := by
  simp [sampleDateLe, samplePost, sampleOldPost]
  decide

/-- The feed traced on a store with an old post, a page, a draft and a newer
post: the newer post comes first, the page and the draft are left out. -/
theorem feed_samples_newest_first :
    feed sampleDateLe siteMetadata [sampleOldPost, samplePage, sampleDraft, samplePost] =
      Except.ok [serializeEdge (siteQuery siteMetadata) (selectNode samplePost),
        serializeEdge (siteQuery siteMetadata) (selectNode sampleOldPost)] := by
  rw [feed_of_posts _ _ _ (by decide), filter_samples]
  simp [List.mergeSort, List.merge, List.splitInTwo, sampleDateLe_new_old, feedLimit]

/-- Claim C4 fails beyond the limit: of 1001 published posts the feed does not
hold one entry each. -/
theorem feed_drops_posts_beyond_limit :
    ¬ ∃ entries : List JSObj,
        feed sampleDateLe siteMetadata (List.replicate 1001 samplePost) =
          Except.ok entries ∧
        entries.Perm (feedOnePerPost siteMetadata (List.replicate 1001 samplePost)) := by
  rintro ⟨entries, hfeed, hperm⟩
  have hf : (List.replicate 1001 samplePost).filter feedFilter =
      List.replicate 1001 samplePost :=
    List.filter_replicate_of_pos feedFilter_samplePost
  have hne : ((List.replicate 1001 samplePost).filter feedFilter).isEmpty = false := by
    rw [hf]; rfl
  rw [feed_of_posts _ _ _ hne] at hfeed
  have hl := hperm.length_eq
  rw [← Except.ok.inj hfeed, length_feedOnePerPost, hf, List.length_map, List.length_take,
    List.length_mergeSort, List.length_replicate] at hl
  simp [feedLimit] at hl

/-- Claim C4, amended: when the store holds at least one published post (post
and not draft), the feed is built from the published posts put in date
descending order (`dateLe` being a total preorder on dates): it holds the
entries of the first `limit` (1000) of them, in that order, so no entry for a
draft or a non-post; when there are at most 1000 published posts it holds
exactly one entry for each. -/
theorem feed_first_posts_by_date (dateLe : JSVal → JSVal → Bool) (m : SiteMetadata)
    (nodes : List MarkdownRemark)
    (htrans : ∀ a b c, dateLe a b = true → dateLe b c = true → dateLe a c = true)
    (htotal : ∀ a b, (dateLe a b || dateLe b a) = true)
    (hne : (nodes.filter feedFilter).isEmpty = false) :
    ∃ (ordered : List MarkdownRemark) (entries : List JSObj),
      ordered.Perm (nodes.filter feedFilter) ∧
      ordered.Pairwise (fun a b => dateLe b.frontmatter.date a.frontmatter.date = true) ∧
      feed dateLe m nodes = Except.ok entries ∧
      entries = (ordered.take feedLimit).map
        (fun n => serializeEdge (siteQuery m) (selectNode n)) ∧
      ((nodes.filter feedFilter).length ≤ feedLimit →
        entries.Perm (feedOnePerPost m nodes)) := by
  refine ⟨(nodes.filter feedFilter).mergeSort
      (fun a b => dateLe b.frontmatter.date a.frontmatter.date), _,
    List.mergeSort_perm _ _, ?_, feed_of_posts dateLe m nodes hne, rfl, fun hle => ?_⟩
  · have hs := @List.sorted_mergeSort MarkdownRemark
      (fun a b => dateLe b.frontmatter.date a.frontmatter.date)
      (fun a b c hab hbc => htrans _ _ _ hbc hab)
      (fun a b => by
        have := htotal a.frontmatter.date b.frontmatter.date
        simp only [Bool.or_eq_true] at this ⊢
        exact this.symm)
      (nodes.filter feedFilter)
    exact hs
  · rw [List.take_of_length_le (by simpa using hle)]
    exact (List.mergeSort_perm _ _).map _

/-- The amended claim C4 on a store with an old post, a page, a draft and a
newer post, dates ordered as text. -/
theorem feed_first_posts_by_date_witness :
    ([sampleOldPost, samplePage, sampleDraft, samplePost].filter feedFilter).isEmpty = false ∧
    ∃ (ordered : List MarkdownRemark) (entries : List JSObj),
      ordered.Perm ([sampleOldPost, samplePage, sampleDraft, samplePost].filter feedFilter) ∧
      ordered.Pairwise
        (fun a b => sampleDateLe b.frontmatter.date a.frontmatter.date = true) ∧
      feed sampleDateLe siteMetadata [sampleOldPost, samplePage, sampleDraft, samplePost] =
        Except.ok entries ∧
      entries = (ordered.take feedLimit).map
        (fun n => serializeEdge (siteQuery siteMetadata) (selectNode n)) ∧
      (([sampleOldPost, samplePage, sampleDraft, samplePost].filter feedFilter).length ≤
          feedLimit →
        entries.Perm
          (feedOnePerPost siteMetadata [sampleOldPost, samplePage, sampleDraft, samplePost])) :=
  ⟨by decide,
   feed_first_posts_by_date sampleDateLe siteMetadata
    [sampleOldPost, samplePage, sampleDraft, samplePost]
    sampleDateLe_trans sampleDateLe_total (by decide)⟩

end GatsbyConfig

/-! ## The serializer leaves its argument alone -/

namespace GatsbyConfig

theorem serializeEdgeAt_of_get (w : World) (i : Nat) (edge : Edge)
    (h : w.edges.get? i = some edge) :
    serializeEdgeAt w i =
      (⟨w.arg, w.fresh ++ [serializeEdge w.arg.query.site edge]⟩,
        Loc.fresh w.fresh.length) := by
  have hr : World.read ⟨w.arg, w.fresh ++ [[]]⟩ (Loc.frontmatter i) =
      edge.node.frontmatter := by
    have h' : (World.edges ⟨w.arg, w.fresh ++ [[]]⟩).get? i = some edge := h
    simp only [World.read, h']
  have ha : (World.alloc w).1.read (Loc.frontmatter i) = edge.node.frontmatter := hr
  simp only [serializeEdgeAt, h, objectAssignAt, ha]
  simp [World.alloc, World.write, World.read, serializeEdge, List.getD_eq_getElem?_getD]

theorem serializeLoop_spec (is : List Nat) (w : World)
    (h : ∀ i ∈ is, i < w.edges.length) :
    (serializeLoop is w).1 =
        ⟨w.arg, w.fresh ++ is.filterMap (fun i =>
          (w.edges.get? i).map (serializeEdge w.arg.query.site))⟩ ∧
      (serializeLoop is w).2 =
        (List.range is.length).map (fun j => Loc.fresh (w.fresh.length + j)) := by
  induction is generalizing w with
  | nil => simp [serializeLoop]
  | cons i rest ih =>
    have hi : i < w.edges.length := h i (List.mem_cons_self _ _)
    obtain ⟨edge, he⟩ : ∃ edge, w.edges.get? i = some edge :=
      ⟨w.edges.get ⟨i, hi⟩, List.get?_eq_get hi⟩
    have hstep := serializeEdgeAt_of_get w i edge he
    have hrest : ∀ j ∈ rest,
        j < (World.edges ⟨w.arg, w.fresh ++ [serializeEdge w.arg.query.site edge]⟩).length :=
      fun j hj => h j (List.mem_cons_of_mem _ hj)
    have ih' := ih ⟨w.arg, w.fresh ++ [serializeEdge w.arg.query.site edge]⟩ hrest
    have he' : (World.edges ⟨w.arg, w.fresh ++ [serializeEdge w.arg.query.site edge]⟩) =
        w.edges := rfl
    simp only [serializeLoop, hstep, ih'.1, ih'.2, he']
    have he2 : w.edges[i]? = some edge := by simpa using he
    constructor
    · simp [List.filterMap_cons, he2]
    · simp [List.range_succ_eq_map, Function.comp_def, Nat.add_assoc, Nat.add_comm 1]

theorem filterMap_range_get (f : Edge → JSObj) (edges : List Edge) :
    (List.range edges.length).filterMap (fun i => (edges.get? i).map f) =
      edges.map f := by
  induction edges with
  | nil => simp
  | cons a l ih =>
    have ih' : List.filterMap (fun i => Option.map f l[i]?) (List.range l.length) =
        List.map f l := by simpa using ih
    simp [List.range_succ_eq_map, List.filterMap_map, Function.comp_def, ih']

theorem serializeWorld_eq (w : World) :
    serializeWorld w =
      (⟨w.arg, w.fresh ++ serialize w.arg⟩,
        (List.range w.edges.length).map (fun j => Loc.fresh (w.fresh.length + j))) := by
  have h := serializeLoop_spec (List.range w.edges.length) w
    (fun i hi => List.mem_range.mp hi)
  have hf := filterMap_range_get (serializeEdge w.arg.query.site) w.edges
  apply Prod.ext
  · simp only [serializeWorld]
    rw [h.1, hf]
    rfl
  · simp only [serializeWorld]
    rw [h.2, List.length_range]

theorem read_fresh_block (arg : SerializeArg) (pre es post : List JSObj) :
    ((List.range es.length).map (fun j => Loc.fresh (pre.length + j))).map
        (World.read ⟨arg, pre ++ es ++ post⟩) = es := by
  apply List.ext_getElem
  · simp
  · intro n h1 h2
    have hn : n < es.length := h2
    simp [World.read, List.getD_eq_getElem?_getD, List.append_assoc,
      List.getElem?_append_right, List.getElem?_append_left, hn]

/-- Claim C8: run on a store, the serializer leaves its argument (site
metadata and every node's html, fields and frontmatter) and every object that
existed before the call as they were; the entries it returns are those of the
function `serialize` of its argument alone; and a second call on the same
argument returns entries equal to the first call's, which are still intact. -/
theorem serialize_pure (w : World) :
    (serializeWorld w).1.arg = w.arg ∧
      (serializeWorld w).1.fresh.take w.fresh.length = w.fresh ∧
      (serializeWorld w).2.map (serializeWorld w).1.read = serialize w.arg ∧
      (serializeWorld (serializeWorld w).1).1.arg = w.arg ∧
      (serializeWorld (serializeWorld w).1).2.map
          (serializeWorld (serializeWorld w).1).1.read = serialize w.arg ∧
      (serializeWorld w).2.map (serializeWorld (serializeWorld w).1).1.read =
        serialize w.arg := by
  have h1 := serializeWorld_eq w
  have h2 := serializeWorld_eq ⟨w.arg, w.fresh ++ serialize w.arg⟩
  have hlen : (serialize w.arg).length = w.edges.length := by
    simp [serialize, World.edges]
  have he : (World.edges ⟨w.arg, w.fresh ++ serialize w.arg⟩) = w.edges := rfl
  rw [h1]
  simp only []
  rw [h2]
  simp only [he]
  refine ⟨trivial, ?_, ?_, trivial, ?_, ?_⟩
  · simp
  · have := read_fresh_block w.arg w.fresh (serialize w.arg) []
    rw [hlen] at this
    simpa using this
  · have := read_fresh_block w.arg (w.fresh ++ serialize w.arg) (serialize w.arg) []
    rw [hlen] at this
    simpa using this
  · have := read_fresh_block w.arg w.fresh (serialize w.arg) (serialize w.arg)
    rw [hlen] at this
    simpa using this

end GatsbyConfig

/-! ## The default layout -/

namespace DefaultLayout

open GatsbyConfig

/-- Claim C10: `MainLayout.render` returns a `Base` element whose only child
is the wrapper `div`, whose children are a `Sidebar` element holding exactly
the `sidebar` prop and then the content `div` holding exactly the `children`
prop; other props and the component state do not change the result. -/
theorem render_structure (styles : Styles) (this : MainLayout) :
    MainLayout.render styles this =
        ReactNode.element (ElementType.component "Base") [("className", styles.test)]
          [ReactNode.element (ElementType.host "div") [("className", styles.wrapper)]
            [ReactNode.element (ElementType.component "Sidebar") [] [this.props.sidebar],
             ReactNode.element (ElementType.host "div") [("className", styles.content)]
               [this.props.children]]] ∧
      ∀ (others : JSObj) (state : JSVal),
        MainLayout.render styles ⟨⟨this.props.children, this.props.sidebar, others⟩, state⟩ =
          MainLayout.render styles this :=
  ⟨rfl, fun _ _ => rfl⟩

end DefaultLayout
